import Mathlib

/-!
Shallow embedding of the chess rules engine of `chess-tui`
(`src/piece.rs`, `src/board.rs`, `src/fen.rs`).

Conventions of the embedding:
* `u8` square values and indices become `Nat`; signed `i8` intermediates in the
  move generators become `Int` (the Rust values never leave the `i8` range on
  the paths exercised here, so the arithmetic agrees).
* Rust's `%` on values that are non-negative at every use site agrees with
  `Int.emod` / `Nat.mod` used below.
* the 64-entry board array becomes a `List Nat`; `board[i]` reads become
  `List.getD · i 0` and writes become `List.set`.
* a Rust `panic!` / `unwrap` failure is modelled as `Option.none` (or the
  `crash` constructor of `FenOut` for the FEN parser).
* `char::is_numeric` (the full Unicode numeric table) is not embedded:
  the placement loop `fenLoopN` takes it as a parameter, and every fact
  proved about it assumes only that ASCII digits are numeric. The concrete
  parser `fenLoop` instantiates it with the ASCII digit test, which agrees
  with `char::is_numeric` on the ASCII strings that are the only concrete
  inputs evaluated here.
-/

inductive PieceError where
  | PieceEncodingError
  | NoPieceFound
  | UnkownFENCharacter
deriving DecidableEq

inductive Piece where
  | WhiteKing
  | WhiteQueen
  | WhiteRook
  | WhiteBishop
  | WhiteKnight
  | WhitePawn
  | BlackKing
  | BlackQueen
  | BlackRook
  | BlackBishop
  | BlackKnight
  | BlackPawn
deriving DecidableEq

/-- `impl From<Piece> for u8` in `src/piece.rs`. -/
def pieceCode : Piece → Nat
  | .WhiteKing => 1
  | .WhiteQueen => 2
  | .WhiteRook => 4
  | .WhiteBishop => 8
  | .WhiteKnight => 16
  | .WhitePawn => 32
  | .BlackKing => 65
  | .BlackQueen => 66
  | .BlackRook => 68
  | .BlackBishop => 72
  | .BlackKnight => 80
  | .BlackPawn => 96

/-- `impl TryFrom<u8> for Piece` in `src/piece.rs`. -/
def Piece.try_from (value : Nat) : Except PieceError Piece :=
  if value = 1 then .ok .WhiteKing
  else if value = 2 then .ok .WhiteQueen
  else if value = 4 then .ok .WhiteRook
  else if value = 8 then .ok .WhiteBishop
  else if value = 16 then .ok .WhiteKnight
  else if value = 32 then .ok .WhitePawn
  else if value = 65 then .ok .BlackKing
  else if value = 66 then .ok .BlackQueen
  else if value = 68 then .ok .BlackRook
  else if value = 72 then .ok .BlackBishop
  else if value = 80 then .ok .BlackKnight
  else if value = 96 then .ok .BlackPawn
  else if value = 0 then .error .NoPieceFound
  else .error .PieceEncodingError

/-- `impl TryFrom<char> for Piece` in `src/piece.rs`. -/
def Piece.try_from_char (value : Char) : Except PieceError Piece :=
  if value = 'k' then .ok .BlackKing
  else if value = 'q' then .ok .BlackQueen
  else if value = 'r' then .ok .BlackRook
  else if value = 'b' then .ok .BlackBishop
  else if value = 'n' then .ok .BlackKnight
  else if value = 'p' then .ok .BlackPawn
  else if value = 'K' then .ok .WhiteKing
  else if value = 'Q' then .ok .WhiteQueen
  else if value = 'R' then .ok .WhiteRook
  else if value = 'B' then .ok .WhiteBishop
  else if value = 'N' then .ok .WhiteKnight
  else if value = 'P' then .ok .WhitePawn
  else .error .UnkownFENCharacter

/-- `impl From<Piece> for char` in `src/piece.rs`. -/
def pieceChar : Piece → Char
  | .BlackKing => 'k'
  | .BlackQueen => 'q'
  | .BlackRook => 'r'
  | .BlackBishop => 'b'
  | .BlackKnight => 'n'
  | .BlackPawn => 'p'
  | .WhiteKing => 'K'
  | .WhiteQueen => 'Q'
  | .WhiteRook => 'R'
  | .WhiteBishop => 'B'
  | .WhiteKnight => 'N'
  | .WhitePawn => 'P'

/-- `Piece::is_white`: the encoded value is below 64. -/
def Piece.is_white (self : Piece) : Bool := pieceCode self < 64

/-- `Piece::white_pieces` (note: includes king and pawn). -/
def Piece.white_pieces : List Piece :=
  [.WhiteKing, .WhiteQueen, .WhiteRook, .WhiteBishop, .WhiteKnight, .WhitePawn]

/-- `Piece::black_pieces` (note: includes king and pawn). -/
def Piece.black_pieces : List Piece :=
  [.BlackKing, .BlackQueen, .BlackRook, .BlackBishop, .BlackKnight, .BlackPawn]

inductive CastleRigthsMask where
  | WhiteKingside
  | WhiteQueenside
  | BlackKingside
  | BlackQueenside
deriving DecidableEq

/-- Numeric value of a `CastleRigthsMask` variant. -/
def maskVal : CastleRigthsMask → Nat
  | .WhiteKingside => 8
  | .WhiteQueenside => 4
  | .BlackKingside => 2
  | .BlackQueenside => 1

structure CastleRights where
  rights : Nat
deriving DecidableEq

/-- `CastleRights::set`. -/
def CastleRights.set (self : CastleRights) (mask : CastleRigthsMask) : CastleRights :=
  ⟨self.rights ||| maskVal mask⟩

/-- `CastleRights::unset` (`rights &= !(mask as u8)`). -/
def CastleRights.unset (self : CastleRights) (mask : CastleRigthsMask) : CastleRights :=
  ⟨self.rights &&& (255 - maskVal mask)⟩

/-- `CastleRights::get`. -/
def CastleRights.get (self : CastleRights) (mask : CastleRigthsMask) : Bool :=
  self.rights &&& maskVal mask > 0

inductive Position where
  | Algebraic (rank file : Nat)
  | Relative (col row : Nat) (flip : Bool)
  | Index (ix : Nat)
deriving DecidableEq

/-- The lookup table `move_to_ix` in `src/board.rs`. -/
def move_to_ix (c r : Nat) : Nat :=
  let m : List (List Nat) :=
    [[56, 57, 58, 59, 60, 61, 62, 63],
     [48, 49, 50, 51, 52, 53, 54, 55],
     [40, 41, 42, 43, 44, 45, 46, 47],
     [32, 33, 34, 35, 36, 37, 38, 39],
     [24, 25, 26, 27, 28, 29, 30, 31],
     [16, 17, 18, 19, 20, 21, 22, 23],
     [8, 9, 10, 11, 12, 13, 14, 15],
     [0, 1, 2, 3, 4, 5, 6, 7]]
  (m.getD r []).getD c 0

/-- `Position::as_ix`. -/
def Position.as_ix : Position → Nat
  | .Algebraic rank file => move_to_ix rank file
  | .Relative col row flip => if flip then move_to_ix col row else col + row * 8
  | .Index ix => ix

/-- `impl PartialEq for Position`: equality of resolved indices. -/
def Position.peq (a b : Position) : Bool := a.as_ix == b.as_ix

structure Move where
  fromSq : Position
  toSq : Position
  promotion : Option Piece
  en_passant : Option Position
  castling : Option (Position × Position)
  piece : Option Piece
deriving DecidableEq

/-- `Move::new_with_all`. -/
def Move.new_with_all (f t : Position) (promotion : Option Piece)
    (en_passant : Option Position) (castling : Option (Position × Position)) : Move :=
  { fromSq := f, toSq := t, promotion := promotion, en_passant := en_passant,
    castling := castling, piece := none }

/-- `Move::new`. -/
def Move.new (f t : Position) : Move := Move.new_with_all f t none none none

/-- `Move::new_promotion`. -/
def Move.new_promotion (f t : Position) (promotion : Option Piece) : Move :=
  Move.new_with_all f t promotion none none

/-- `Move::new_enpassant`. -/
def Move.new_enpassant (f t : Position) (en_passant : Position) : Move :=
  Move.new_with_all f t none (some en_passant) none

/-- `Move::new_castling`. -/
def Move.new_castling (f t : Position) (castling : Position × Position) : Move :=
  Move.new_with_all f t none none (some castling)

/-- `impl PartialEq for Move`: only from, to and promotion are compared. -/
def Move.peq (a b : Move) : Bool :=
  Position.peq a.fromSq b.fromSq && Position.peq a.toSq b.toSq &&
    decide (a.promotion = b.promotion)

/-- `path_clear` in `src/piece.rs`: checks squares `from+1 ..= to`
(an empty range when `from + 1 > to`). -/
def path_clear (board : List Nat) (f t : Nat) (threatmap : List Nat) : Bool :=
  (List.range' (f + 1) (t + 1 - (f + 1))).all fun i =>
    board.getD i 0 == 0 && threatmap.getD i 0 == 0

/-- One ray of `Piece::get_sliding_moves`; the fuel argument (always ample)
models the Rust `loop`. -/
def slideRay (self piece : Piece) (board : List Nat) (position : Nat) (d : Int) :
    Nat → Int → List Move
  | 0, _ => []
  | fuel + 1, pos =>
    let last_rank := pos % 8
    let pos' := pos + d
    let new_rank := pos' % 8
    if ¬(0 ≤ pos' ∧ pos' ≤ 63) then []
    else if last_rank == 0 && new_rank == 7 then []
    else if last_rank == 7 && new_rank == 0 then []
    else
      match Piece.try_from (board.getD pos'.toNat 0) with
      | .ok p =>
        if p.is_white != self.is_white then
          [Move.new (.Index position) (.Index pos'.toNat)]
        else []
      | .error _ =>
        Move.new (.Index position) (.Index pos'.toNat) ::
          (if piece = .WhiteKing ∨ piece = .BlackKing then []
           else slideRay self piece board position d fuel pos')

/-- `Piece::get_sliding_moves`. -/
def get_sliding_moves (self : Piece) (board : List Nat) (position : Nat) : List Move :=
  match Piece.try_from (board.getD position 0) with
  | .error _ => []
  | .ok piece =>
    let directions : List Int := [8, -8, 1, -1, 7, -7, 9, -9]
    let dirs : List Int :=
      match piece with
      | .WhiteQueen | .BlackQueen => directions
      | .WhiteKing | .BlackKing => directions
      | .WhiteRook | .BlackRook => directions.take 4
      | .WhiteBishop | .BlackBishop => directions.drop 4
      | _ => []
    dirs.flatMap fun d => slideRay self piece board position d 64 (position : Int)

/-- `Piece::get_knight_moves`. -/
def get_knight_moves (self : Piece) (board : List Nat) (position : Nat) : List Move :=
  ([6, -6, 10, -10, 15, -15, 17, -17] : List Int).flatMap fun d =>
    let new_pos : Int := (position : Int) + d
    let cur_rank : Int := (position : Int) % 8
    let new_rank : Int := new_pos % 8
    if ¬(0 ≤ new_pos ∧ new_pos ≤ 63) then []
    else if (cur_rank == 0 || cur_rank == 1) && (new_rank == 7 || new_rank == 6) then []
    else if (cur_rank == 6 || cur_rank == 7) && (new_rank == 0 || new_rank == 1) then []
    else
      match Piece.try_from (board.getD new_pos.toNat 0) with
      | .ok p =>
        if p.is_white != self.is_white then
          [Move.new (.Index position) (.Index new_pos.toNat)]
        else []
      | .error _ => [Move.new (.Index position) (.Index new_pos.toNat)]

/-- `Piece::add_with_promotions`: on a promoting destination one move per
entry of `white_pieces`/`black_pieces` is produced. -/
def add_with_promotions (self : Piece) (f t : Nat) : List Move :=
  let is_promoting := (self.is_white && t < 8) || (!self.is_white && t > 55)
  let promotions : List (Option Piece) :=
    if is_promoting then
      (if self.is_white then Piece.white_pieces else Piece.black_pieces).map some
    else [none]
  promotions.map fun p => Move.new_promotion (.Index f) (.Index t) p

/-- `Piece::get_en_passant`. -/
def get_en_passant (self : Piece) (board : List Nat) (position : Nat)
    (last_move : Option Move) : Option Move :=
  match last_move with
  | none => none
  | some lm =>
    match Piece.try_from (board.getD lm.toSq.as_ix 0) with
    | .error _ => none
    | .ok p =>
      if p ≠ Piece.WhitePawn ∧ p ≠ Piece.BlackPawn then none
      else
        let last_from_file := lm.fromSq.as_ix / 8
        let last_to_rank := lm.toSq.as_ix % 8
        let last_to_file := lm.toSq.as_ix / 8
        let self_rank := position % 8
        let self_file := position / 8
        if Nat.dist last_from_file last_to_file ≠ 2 then none
        else if last_to_file ≠ self_file then none
        else if Nat.dist last_to_rank self_rank ≠ 1 then none
        else
          let direction : Int := if self.is_white then -1 else 1
          let capture_square : Nat := position + last_to_rank - self_rank
          let dest_square : Nat := (((capture_square : Int) + 8 * direction).emod 256).toNat
          some (Move.new_enpassant (.Index position) (.Index dest_square)
            (.Index capture_square))

/-- `Piece::get_pawn_moves`. -/
def get_pawn_moves (self : Piece) (board : List Nat) (position : Nat)
    (last_move : Option Move) : List Move :=
  let direction : Int := if self.is_white then -1 else 1
  let is_first_move :=
    (!self.is_white && position < 16 && position > 7) ||
      (self.is_white && position < 56 && position > 47)
  let ahead_pos : Int := (position : Int) + 8 * direction
  let fwd : List Move :=
    if 0 ≤ ahead_pos ∧ ahead_pos < 64 ∧ board.getD ahead_pos.toNat 0 = 0 then
      add_with_promotions self position ahead_pos.toNat ++
        (if is_first_move then
          let two_ahead_pos : Int := (position : Int) + 16 * direction
          if board.getD two_ahead_pos.toNat 0 = 0 then
            add_with_promotions self position two_ahead_pos.toNat
          else []
        else [])
    else []
  let left_pos : Int := (position : Int) + 8 * direction - 1
  let leftc : List Move :=
    if (0 ≤ left_pos ∧ left_pos < 64) ∧ left_pos % 8 ≠ 7 then
      match Piece.try_from (board.getD left_pos.toNat 0) with
      | .ok p =>
        if p.is_white != self.is_white then add_with_promotions self position left_pos.toNat
        else []
      | .error _ => []
    else []
  let right_pos : Int := (position : Int) + 8 * direction + 1
  let rightc : List Move :=
    if (0 ≤ right_pos ∧ right_pos < 64) ∧ right_pos % 8 ≠ 0 then
      match Piece.try_from (board.getD right_pos.toNat 0) with
      | .ok p =>
        if p.is_white != self.is_white then add_with_promotions self position right_pos.toNat
        else []
      | .error _ => []
    else []
  let ep : List Move :=
    match get_en_passant self board position last_move with
    | some m => [m]
    | none => []
  fwd ++ leftc ++ rightc ++ ep

/-- `Piece::get_castling_moves`. The `u8` subtractions `king_ix - 1`,
`king_ix - 2` are modelled by truncated `Nat` subtraction (they cannot
underflow for a king that still holds a queenside right on square ≥ 2,
which is the only situation exercised here). -/
def get_castling_moves (self : Piece) (board : List Nat) (position : Nat)
    (castle_rights : CastleRights) (threatmap : List Nat) : List Move :=
  let king_ix := position
  let p4 : Bool × Bool × Nat × Nat :=
    if self.is_white then
      (castle_rights.get .WhiteKingside, castle_rights.get .WhiteQueenside, 63, 56)
    else
      (castle_rights.get .BlackKingside, castle_rights.get .BlackQueenside, 7, 0)
  let ks_right := p4.1
  let qs_right := p4.2.1
  let ks_rook := p4.2.2.1
  let qs_rook := p4.2.2.2
  let ks : List Move :=
    if ks_right then
      let rook_path_clear := path_clear board ks_rook (king_ix + 1) (List.replicate 64 0)
      let king_path_clear := path_clear board king_ix (king_ix + 2) threatmap
      if rook_path_clear && king_path_clear then
        [Move.new_castling (.Index king_ix) (.Index (king_ix + 2))
          (.Index ks_rook, .Index (king_ix + 1))]
      else []
    else []
  let qs : List Move :=
    if qs_right then
      let rook_path_clear := path_clear board qs_rook (king_ix - 1) (List.replicate 64 0)
      let king_path_clear := path_clear board king_ix (king_ix - 2) threatmap
      if rook_path_clear && king_path_clear then
        [Move.new_castling (.Index king_ix) (.Index (king_ix - 2))
          (.Index qs_rook, .Index (king_ix - 1))]
      else []
    else []
  ks ++ qs

/-- `Piece::get_moves`. -/
def Piece.get_moves (self : Piece) (board : List Nat) (position : Nat)
    (last_move : Option Move) (castle_rights : CastleRights)
    (threatmap : List Nat) : List Move :=
  match self with
  | .BlackKing | .WhiteKing =>
    get_sliding_moves self board position ++
      get_castling_moves self board position castle_rights threatmap
  | .BlackQueen | .WhiteQueen => get_sliding_moves self board position
  | .BlackRook | .WhiteRook => get_sliding_moves self board position
  | .BlackBishop | .WhiteBishop => get_sliding_moves self board position
  | .BlackKnight | .WhiteKnight => get_knight_moves self board position
  | .BlackPawn | .WhitePawn => get_pawn_moves self board position last_move

inductive MoveError where
  | WrongTurn
  | NoPieceGrabbed
  | IllegalMove (mov : Move)
deriving DecidableEq

/-- Unified error type for `anyhow::Result` in `src/board.rs`
(a `MoveError` or a `PieceError` can be returned). -/
inductive EngineError where
  | moveErr (e : MoveError)
  | pieceErr (e : PieceError)
deriving DecidableEq

structure BoardState where
  board : List Nat
  white_to_move : Bool
  grabbed_piece : Option Nat
  last_move : Option Move
  threatmap : List Nat
  castling : CastleRights
  history : List Move
deriving DecidableEq

/-- `BoardState::get_all_moves`. -/
def get_all_moves (s : BoardState) : List Move :=
  (List.range 64).flatMap fun i =>
    match Piece.try_from (s.board.getD i 0) with
    | .error _ => []
    | .ok piece =>
      if piece.is_white != s.white_to_move then []
      else piece.get_moves s.board i s.last_move s.castling s.threatmap

/-- `BoardState::update_threatmap`: flip side to move, zero the map,
mark every generated destination, flip back. Board, side to move and the
other fields are unchanged. -/
def update_threatmap (s : BoardState) : BoardState :=
  let gen : BoardState :=
    { s with white_to_move := !s.white_to_move, threatmap := List.replicate 64 0 }
  { s with
    threatmap := (get_all_moves gen).foldl (fun t m => t.set m.toSq.as_ix 1)
      (List.replicate 64 0) }

/-- `BoardState::move_piece`. -/
def move_piece (s : BoardState) (mov : Move) : BoardState :=
  let final_piece : Nat :=
    match mov.promotion with
    | some p => pieceCode p
    | none => s.board.getD mov.fromSq.as_ix 0
  let b1 := s.board.set mov.toSq.as_ix final_piece
  let b2 := b1.set mov.fromSq.as_ix 0
  let b3 :=
    match mov.en_passant with
    | some captured => b2.set captured.as_ix 0
    | none => b2
  { s with board := b3, last_move := some mov }

/-- `BoardState::leaves_king_in_check`. The `unwrap` on the king-position
search is modelled as `Option`: `none` is the panic. On success the result
also carries the mutated scratch state (board restored at the two touched
squares, threat map recomputed, `last_move` overwritten by the simulation). -/
def leaves_king_in_check (s : BoardState) (mov : Move) : Option (Bool × BoardState) :=
  let backup_from := s.board.getD mov.fromSq.as_ix 0
  let backup_to := s.board.getD mov.toSq.as_ix 0
  let s1 := update_threatmap (move_piece s mov)
  let king_code : Nat := if s1.white_to_move then pieceCode .WhiteKing else pieceCode .BlackKing
  match s1.board.findIdx? (fun p => p == king_code) with
  | none => none
  | some king_ix =>
    let check := s1.threatmap.getD king_ix 0 > 0
    let restored :=
      { s1 with
        board := (s1.board.set mov.fromSq.as_ix backup_from).set mov.toSq.as_ix backup_to }
    some (check, update_threatmap restored)

/-- The `filter` of `BoardState::get_legal_moves`, with the scratch clone's
state threaded left to right and a possible panic propagated. -/
def filterLegal (s : BoardState) : List Move → Option (List Move)
  | [] => some []
  | m :: ms =>
    match leaves_king_in_check s m with
    | none => none
    | some (check, s') =>
      match filterLegal s' ms with
      | none => none
      | some rest => some (if check then rest else m :: rest)

/-- `BoardState::get_legal_moves` (operates on a clone of the state). -/
def get_legal_moves (s : BoardState) : Option (List Move) :=
  filterLegal s (get_all_moves s)

/-- `BoardState::is_legal`: membership by `Move`'s partial equality. -/
def is_legal (s : BoardState) (mov : Move) : Option Bool :=
  (get_legal_moves s).map fun l => l.any fun x => Move.peq x mov

/-- `BoardState::add_to_history`: resolves the moved piece before any
board mutation; on a decode failure nothing is changed. -/
def add_to_history (s : BoardState) (mov : Move) : Except PieceError BoardState :=
  match Piece.try_from (s.board.getD mov.fromSq.as_ix 0) with
  | .error e => .error e
  | .ok piece => .ok { s with history := s.history ++ [{ mov with piece := some piece }] }

/-- `BoardState::update_castling_rights` (inspects `mov.to`, since the move
has already been applied). -/
def update_castling_rights (s : BoardState) (mov : Move) : BoardState :=
  let piece := Piece.try_from (s.board.getD mov.toSq.as_ix 0)
  let p4 : CastleRigthsMask × CastleRigthsMask × Nat × Nat :=
    if s.white_to_move then (.WhiteKingside, .WhiteQueenside, 63, 56)
    else (.BlackKingside, .BlackQueenside, 7, 0)
  let ks_right := p4.1
  let qs_right := p4.2.1
  let ks_rook := p4.2.2.1
  let qs_rook := p4.2.2.2
  match piece with
  | .ok .WhiteRook | .ok .BlackRook =>
    let c1 := if mov.fromSq.as_ix = ks_rook then s.castling.unset ks_right else s.castling
    let c2 := if mov.fromSq.as_ix = qs_rook then c1.unset qs_right else c1
    { s with castling := c2 }
  | .ok .WhiteKing | .ok .BlackKing =>
    { s with castling := (s.castling.unset ks_right).unset qs_right }
  | _ => s

/-- `BoardState::pass_turn`. -/
def pass_turn (s : BoardState) : BoardState :=
  update_threatmap { s with white_to_move := !s.white_to_move }

/-- `BoardState::make_move`. The outer `Option` is the panic of the
legality oracle; the returned pair is (call result, state after the call),
mirroring `&mut self`. -/
def make_move (s : BoardState) (mov : Move) : Option (Except EngineError Unit × BoardState) :=
  if mov.fromSq.as_ix = mov.toSq.as_ix then some (.ok (), s)
  else
    match is_legal s mov with
    | none => none
    | some false => some (.error (.moveErr (.IllegalMove mov)), s)
    | some true =>
      match add_to_history s mov with
      | .error e => some (.error (.pieceErr e), s)
      | .ok s1 =>
        let s2 := move_piece s1 mov
        let s3 :=
          match mov.castling with
          | some sm => move_piece s2 (Move.new sm.1 sm.2)
          | none => s2
        let s4 := update_castling_rights s3 mov
        let s5 := pass_turn s4
        some (.ok (), s5)

/-- Outcome of an operation that can fail with an error or panic
(`crash` models a Rust panic). -/
inductive FenOut (α : Type) where
  | ok (val : α)
  | err
  | crash
deriving DecidableEq

structure Fen where
  board : List Nat
  white_to_move : Bool
  castling : Nat
deriving DecidableEq

/-- Helper for `str::split_whitespace`: whitespace-separated tokens,
empty tokens dropped. `acc` holds the current token reversed. -/
def splitWsGo : List Char → List Char → List (List Char)
  | [], acc => if acc = [] then [] else [acc.reverse]
  | c :: cs, acc =>
    if c.isWhitespace then
      if acc = [] then splitWsGo cs [] else acc.reverse :: splitWsGo cs []
    else splitWsGo cs (c :: acc)

/-- `str::split_whitespace` as a list of tokens. -/
def splitWs (l : List Char) : List (List Char) := splitWsGo l []

/-- `char::to_digit(10)`: defined exactly on the ASCII digits `0`–`9`. -/
def toDigit10 (ch : Char) : Option Nat :=
  if ch.isDigit then some (ch.toNat - 48) else none

/-- The placement loop of `Fen::parse`, parameterized by the Unicode
predicate `char::is_numeric` (whose full table is outside this embedding;
the only fact ever assumed of it below is that ASCII digits are numeric).
A numeric character advances by `to_digit(10).unwrap()` — a panic (`none`)
when the character is numeric but not an ASCII digit; a recognized piece
letter writes `board[ix]` — a panic when `ix` is already past the 64
squares — and advances; `/` does nothing; any other character writes
nothing but still advances by one. -/
def fenLoopN (isNum : Char → Bool) : List Char → Nat → List Nat → Option (List Nat)
  | [], _, b => some b
  | ch :: cs, ix, b =>
    if ch = '/' then fenLoopN isNum cs ix b
    else if isNum ch then
      match toDigit10 ch with
      | some skip => fenLoopN isNum cs (ix + skip) b
      | none => none
    else
      match Piece.try_from_char ch with
      | .ok piece =>
        if ix < 64 then fenLoopN isNum cs (ix + 1) (b.set ix (pieceCode piece)) else none
      | .error _ => fenLoopN isNum cs (ix + 1) b

/-- The concrete parser instantiates the numeric predicate with the ASCII
digit test, which agrees with `char::is_numeric` on every ASCII character —
and every concrete string parsed below is ASCII. -/
def fenLoop (cs : List Char) (ix : Nat) (b : List Nat) : Option (List Nat) :=
  fenLoopN Char.isDigit cs ix b

/-- `Fen::parse`. -/
def Fen.parse (value : String) : FenOut Fen :=
  let fields := splitWs value.toList
  match fields with
  | [] => .err
  | position :: _ =>
    match fenLoop position 0 (List.replicate 64 0) with
    | none => .crash
    | some board =>
      let turn := (fields.getD 1 ['w']).map Char.toLower
      let castling := (fields.getD 2 []).foldl
        (fun acc c =>
          if c = 'K' then acc + 8
          else if c = 'Q' then acc + 4
          else if c = 'k' then acc + 2
          else if c = 'q' then acc + 1
          else acc) 0
      .ok { board := board, white_to_move := turn = ['w'], castling := castling }

/-- One rank of `impl Display for Fen` (run-length encoding of empties);
`none` models the `unwrap` panic on an undecodable nonzero square. -/
def fenRow (board : List Nat) (c : Nat) : Option (List Char) :=
  ((List.range 8).foldl
    (fun acc r =>
      match acc with
      | none => none
      | some (out, empty) =>
        let piece := board.getD (c * 8 + r) 0
        if piece = 0 then some (out, empty + 1)
        else
          match Piece.try_from piece with
          | .error _ => none
          | .ok p =>
            some (out ++ (if empty > 0 then [Char.ofNat (48 + empty)] else []) ++
              [pieceChar p], 0))
    (some ([], 0))).map fun pr =>
      pr.1 ++ (if pr.2 > 0 then [Char.ofNat (48 + pr.2)] else [])

/-- `impl Display for Fen`: placement, side, castling letters, and the fixed
placeholder suffix `- 0 1`. -/
def fenDisplay (f : Fen) : Option (List Char) :=
  ((List.range 8).foldl
    (fun acc c =>
      match acc with
      | none => none
      | some out =>
        match fenRow f.board c with
        | none => none
        | some row => some (out ++ row ++ (if c < 7 then ['/'] else [])))
    (some [])).map fun out =>
      out ++ [' '] ++ (if f.white_to_move then ['w'] else ['b']) ++ [' '] ++
        (if f.castling &&& 8 > 0 then ['K'] else []) ++
        (if f.castling &&& 4 > 0 then ['Q'] else []) ++
        (if f.castling &&& 2 > 0 then ['k'] else []) ++
        (if f.castling &&& 1 > 0 then ['q'] else []) ++
        [' ', '-', ' ', '0', ' ', '1']

/-- `BoardState::from_fen`: build the state from the parsed FEN and run the
initial threat-map computation. -/
def BoardState.from_fen (value : String) : FenOut BoardState :=
  match Fen.parse value with
  | .err => .err
  | .crash => .crash
  | .ok fen =>
    .ok (update_threatmap
      { board := fen.board
        white_to_move := fen.white_to_move
        grabbed_piece := none
        last_move := none
        threatmap := List.replicate 64 0
        castling := ⟨fen.castling⟩
        history := [] })

/-- `BoardState::as_fen` (`none` models the serializer's `unwrap` panic). -/
def BoardState.as_fen (s : BoardState) : Option String :=
  let f : Fen :=
    { board := s.board
      white_to_move := s.white_to_move
      castling := s.castling.rights }
  (fenDisplay f).map fun l => String.mk l

/-- The state produced by `from_fen`, with a dead fallback so that concrete
states can be named directly (every use below is on a string `from_fen`
accepts, certified inside the theorems themselves). -/
def mkStateD (value : String) : BoardState :=
  match BoardState.from_fen value with
  | .ok s => s
  | _ =>
    { board := List.replicate 64 0
      white_to_move := true
      grabbed_piece := none
      last_move := none
      threatmap := List.replicate 64 0
      castling := ⟨0⟩
      history := [] }

/-- Run `make_move` inside `Option`, keeping the new state only when the
call returned `Ok`. -/
def runMove (os : Option BoardState) (mov : Move) : Option BoardState :=
  os.bind fun s =>
    match make_move s mov with
    | some (.ok _, s') => some s'
    | _ => none

/-- `INITIAL_POSITION` in `src/app.rs`. -/
def startFen : String := "rnbqkbnr/pppppppp/8/8/8/8/PPPPPPPP/RNBQKBNR w KQkq"

/-- The game state of the standard starting position. -/
def startState : BoardState := mkStateD startFen

/-- White to move and in check from the rook on e8; f1 and g1 empty and
unthreatened; White still holds the kingside castling right. -/
def c1fen : String := "k3r3/8/8/8/8/8/8/4K2R w K"

def c1state : BoardState := mkStateD c1fen

/-- White kingside castling: king e1 (60) to g1 (62), rook h1 (63) to f1 (61). -/
def c1castle : Move := Move.new_castling (.Index 60) (.Index 62) (.Index 63, .Index 61)

/-- A board holding exactly one white pawn, on a7 (index 8). -/
def c2board : List Nat := (List.replicate 64 0).set 8 (pieceCode .WhitePawn)

/-- The generated moves of that pawn: the a7–a8 promotion push. -/
def c2moves : List Move :=
  Piece.get_moves .WhitePawn c2board 8 none ⟨0⟩ (List.replicate 64 0)

/-- The parsed placement board of a FEN string, `none` on error or panic. -/
def fenBoard (s : String) : Option (List Nat) :=
  match Fen.parse s with
  | .ok f => some f.board
  | _ => none

/-- Replaces every character the placement parser skips without
recognizing (not `/`, not numeric per `isNum`, not a piece letter) by the
digit `1`. -/
def fenReplCharN (isNum : Char → Bool) (c : Char) : Char :=
  if c = '/' then c
  else if isNum c then c
  else
    match Piece.try_from_char c with
    | .ok _ => c
    | .error _ => '1'

/-- A small concrete stand-in for `char::is_numeric`: the ASCII digits plus
the numeric, non-digit character `¾` (for which `to_digit(10)` is `None`,
so the real parser panics on it). -/
def c3num (c : Char) : Bool := c.isDigit || c == '¾'

/-- Two lone kings; white king h1 (63), black king a8 (0). -/
def wkFen : String := "k7/8/8/8/8/8/8/7K w"

def wkState : BoardState := mkStateD wkFen

/-- The legal moves of `wkState`: the white king to h2, g1, g2. -/
def wkLegal : List Move :=
  [Move.new (.Index 63) (.Index 55), Move.new (.Index 63) (.Index 62),
    Move.new (.Index 63) (.Index 54)]

/-- An illegal move in `wkState`: the king jumping from h1 to h3. -/
def wkMove : Move := Move.new (.Index 63) (.Index 47)

/-- Black king e8, black pawn d7, white pawn e5, white king e1; black to move. -/
def c7fen : String := "4k3/3p4/8/4P3/8/8/8/4K3 b"

def c7s0 : BoardState := mkStateD c7fen

/-- Black's double pawn push d7 (11) to d5 (27). -/
def c7push : Move := Move.new (.Index 11) (.Index 27)

/-- White's en-passant capture e5 (28) to d6 (19), capturing on d5 (27). -/
def c7ep : Move := Move.new_enpassant (.Index 28) (.Index 19) (.Index 27)

def c7s1 : Option BoardState := runMove (some c7s0) c7push

def c7s2 : Option BoardState := runMove c7s1 c7ep

/-- A placement field encoding 72 squares: the 65th square is a piece
letter, so `Fen::parse` writes at index 64. -/
def c9bad : String := "rnbqkbnr/pppppppp/8/8/8/8/8/PPPPPPPP/RNBQKBNR w"

/-- The square value of the king of the side to move. -/
def moverKingCode (s : BoardState) : Nat :=
  if s.white_to_move then pieceCode .WhiteKing else pieceCode .BlackKing

/-- A move whose promotion (if any) is not to a king of either color.
Simulating such a move on a kingless board leaves the board kingless. -/
def promoSafe (m : Move) : Prop :=
  ∀ p, m.promotion = some p →
    pieceCode p ≠ pieceCode Piece.WhiteKing ∧ pieceCode p ≠ pieceCode Piece.BlackKing

/-- White king d6 (19), white pawn e5 (28), black pawn d5 (27), black king
h8 (7); last move is the double push d7–d5, so White's pawn is offered an
en-passant capture whose destination square d6 holds White's own king. -/
def c10state : BoardState :=
  { board := ((((List.replicate 64 0).set 19 (pieceCode .WhiteKing)).set 28
      (pieceCode .WhitePawn)).set 27 (pieceCode .BlackPawn)).set 7 (pieceCode .BlackKing)
    white_to_move := true
    grabbed_piece := none
    last_move := some (Move.new (.Index 11) (.Index 27))
    threatmap := List.replicate 64 0
    castling := ⟨0⟩
    history := [] }

/-- Same shape with the black king on a1 (56) instead of h8: a second state
in which the mover's king is on the board and the oracle still panics. -/
def c10reach : BoardState :=
  { board := ((((List.replicate 64 0).set 19 (pieceCode .WhiteKing)).set 28
      (pieceCode .WhitePawn)).set 27 (pieceCode .BlackPawn)).set 56 (pieceCode .BlackKing)
    white_to_move := true
    grabbed_piece := none
    last_move := some (Move.new (.Index 11) (.Index 27))
    threatmap := List.replicate 64 0
    castling := ⟨0⟩
    history := [] }

/-- A kingless board with one white pawn on a2: pseudo-legal moves exist. -/
def c10w : BoardState :=
  { board := (List.replicate 64 0).set 48 (pieceCode .WhitePawn)
    white_to_move := true
    grabbed_piece := none
    last_move := none
    threatmap := List.replicate 64 0
    castling := ⟨0⟩
    history := [] }

/-- C1: contrary to the claim, a kingside castling move IS generated (and even
accepted as legal) although the king's start square e1 is marked in the threat
map: `path_clear(board, king_ix, king_ix + 2, threatmap)` checks only squares
`king_ix+1 ..= king_ix+2`, never the start square. In `c1state` White is in
check from the rook on e8 (threat map nonzero at 60), f1/g1 are empty and
unthreatened, yet e1–g1 castling is produced by the generator and survives the
legality filter. -/
theorem c1_kingside_castle_generated_while_in_check :
    BoardState.from_fen c1fen = FenOut.ok c1state ∧
    c1state.threatmap.getD 60 0 ≠ 0 ∧
    c1state.threatmap.getD 61 0 = 0 ∧ c1state.threatmap.getD 62 0 = 0 ∧
    c1state.board.getD 61 0 = 0 ∧ c1state.board.getD 62 0 = 0 ∧
    ((get_all_moves c1state).any fun m => Move.peq m c1castle) = true ∧
    ((get_legal_moves c1state).map fun l => l.any fun m => Move.peq m c1castle) =
      some true := by
  refine ⟨by decide, ?_, by decide, by decide, by decide, by decide, by decide, by decide⟩
  decide

/-- C2: contrary to the claim, a pawn push onto the farthest rank is expanded
into SIX moves — one per entry of `white_pieces`/`black_pieces`, i.e. including
promotion to a king and to a pawn — not four; there is indeed no unpromoted
variant. Evaluated for the white pawn a7–a8 in `c2board`. -/
theorem c2_promotion_expands_to_six_variants :
    c2moves.map (fun m => m.promotion) =
      [some .WhiteKing, some .WhiteQueen, some .WhiteRook, some .WhiteBishop,
        some .WhiteKnight, some .WhitePawn] ∧
    c2moves.length = 6 ∧
    (c2moves.all fun m => m.fromSq.as_ix == 8 && m.toSq.as_ix == 0) = true := by
  refine ⟨by decide, by decide, by decide⟩

/-- C3 (counterexample): parsing a placement field is NOT the same as parsing
the field with unrecognized characters deleted — the unrecognized `.` in `.P`
advances the square cursor, so `P` lands on square 1 instead of square 0. -/
theorem c3_unrecognized_char_advances_cursor :
    fenBoard ".P" ≠ fenBoard "P" ∧
    (fenBoard ".P").map (fun b => (b.getD 0 0, b.getD 1 0)) = some (0, 32) ∧
    (fenBoard "P").map (fun b => (b.getD 0 0, b.getD 1 0)) = some (32, 0) := by
  refine ⟨by decide, by decide, by decide⟩

/-- C3 (amended): for any numeric predicate under which the ASCII digits
are numeric — as they are under `char::is_numeric` — a character that is
not numeric, not `/` and not a piece letter fills no square and raises no
error, but advances the square cursor by exactly one: parsing a placement
field is equivalent to parsing the field with every such character
replaced by the digit `1` (a one-square skip). A character that is numeric
but not an ASCII digit is not skipped: the parser panics on
`to_digit(10).unwrap()`. -/
theorem c3_unrecognized_char_skips_one_square_and_numeric_nondigit_panics :
    ∀ (isNum : Char → Bool), (∀ c, c.isDigit = true → isNum c = true) →
      (∀ (cs : List Char) (ix : Nat) (b : List Nat),
        fenLoopN isNum cs ix b = fenLoopN isNum (cs.map (fenReplCharN isNum)) ix b) ∧
      (∀ (ch : Char) (cs : List Char) (ix : Nat) (b : List Nat),
        ch ≠ '/' → isNum ch = true → ch.isDigit = false →
          fenLoopN isNum (ch :: cs) ix b = none) := by
  intro isNum hd
  constructor
  · intro cs
    induction cs with
    | nil => intro ix b; rfl
    | cons c cs ih =>
      intro ix b
      by_cases h1 : c = '/'
      · have hrc : fenReplCharN isNum c = c := by simp [fenReplCharN, h1]
        simp only [List.map, hrc, fenLoopN, if_pos h1]
        exact ih ix b
      · by_cases h2 : isNum c = true
        · have hrc : fenReplCharN isNum c = c := by simp [fenReplCharN, h1, h2]
          simp only [List.map, hrc, fenLoopN, if_neg h1, if_pos h2]
          cases hto : toDigit10 c with
          | some skip =>
            simp only [hto]
            exact ih (ix + skip) b
          | none => simp only [hto]
        · cases h3 : Piece.try_from_char c with
          | ok p =>
            have hrc : fenReplCharN isNum c = c := by simp [fenReplCharN, h1, h2, h3]
            simp only [List.map, hrc, fenLoopN, if_neg h1, if_neg h2, h3]
            by_cases h4 : ix < 64
            · simp only [if_pos h4]
              exact ih (ix + 1) (b.set ix (pieceCode p))
            · simp only [if_neg h4]
          | error e =>
            have hrc : fenReplCharN isNum c = '1' := by simp [fenReplCharN, h1, h2, h3]
            simp only [List.map, hrc]
            have hl : fenLoopN isNum (c :: cs) ix b = fenLoopN isNum cs (ix + 1) b := by
              simp only [fenLoopN, if_neg h1, if_neg h2, h3]
            have hnum1 : isNum '1' = true := hd '1' (by decide)
            have hr : fenLoopN isNum ('1' :: cs.map (fenReplCharN isNum)) ix b =
                fenLoopN isNum (cs.map (fenReplCharN isNum)) (ix + 1) b := by
              simp only [fenLoopN, if_neg (show ¬('1' = '/') by decide), if_pos hnum1]
              have ht1 : toDigit10 '1' = some 1 := rfl
              simp only [ht1]
            rw [hl, hr]
            exact ih (ix + 1) b
  · intro ch cs ix b hsl hnum hdig
    have hto : toDigit10 ch = none := by simp [toDigit10, hdig]
    simp only [fenLoopN, if_neg hsl, if_pos hnum, hto]

/-- C3 witness: under a predicate marking the ASCII digits and `¾` as
numeric (as `char::is_numeric` does), the parser panics on the placement
field `¾P`, while the unrecognized character `.` in `.P` is equivalent to a
one-square skip. -/
theorem c3_witness_numeric_nondigit_panics_and_dot_skips :
    fenLoopN c3num ['¾', 'P'] 0 (List.replicate 64 0) = none ∧
    fenLoopN c3num ['.', 'P'] 0 (List.replicate 64 0) =
      fenLoopN c3num (['.', 'P'].map (fenReplCharN c3num)) 0 (List.replicate 64 0) :=
  ⟨(c3_unrecognized_char_skips_one_square_and_numeric_nondigit_panics c3num
      (fun c h => by simp [c3num, h])).2 '¾' ['P'] 0 (List.replicate 64 0)
      (by decide) (by decide) (by decide),
    (c3_unrecognized_char_skips_one_square_and_numeric_nondigit_panics c3num
      (fun c h => by simp [c3num, h])).1 ['.', 'P'] 0 (List.replicate 64 0)⟩

/-- C5: on the state parsed from the standard starting FEN string,
`get_legal_moves` returns exactly 20 moves — the 16 single- and double-square
pushes of the 8 pawns (squares 48–55) and the 4 knight moves (b1: 57→42/40,
g1: 62→47/45) — with no promotion on any of them and nothing else. -/
theorem c5_start_position_has_exactly_twenty_legal_moves :
    BoardState.from_fen startFen = FenOut.ok startState ∧
    (get_legal_moves startState).map
        (List.map fun m => (m.fromSq.as_ix, m.toSq.as_ix, m.promotion)) =
      some [(48, 40, none), (48, 32, none), (49, 41, none), (49, 33, none),
        (50, 42, none), (50, 34, none), (51, 43, none), (51, 35, none),
        (52, 44, none), (52, 36, none), (53, 45, none), (53, 37, none),
        (54, 46, none), (54, 38, none), (55, 47, none), (55, 39, none),
        (57, 42, none), (57, 40, none), (62, 47, none), (62, 45, none)] ∧
    (get_legal_moves startState).map List.length = some 20 := by
  refine ⟨by decide, by decide, by decide⟩

/-- C6: serializing the state parsed from the starting FEN string reproduces
the placement, side-to-move and castling fields of
`rnbqkbnr/pppppppp/8/8/8/8/PPPPPPPP/RNBQKBNR w KQkq`; the full output carries
the fixed placeholder suffix `- 0 1`. -/
theorem c6_fen_round_trip_on_start_position :
    BoardState.from_fen startFen = FenOut.ok startState ∧
    startState.as_fen =
      some "rnbqkbnr/pppppppp/8/8/8/8/PPPPPPPP/RNBQKBNR w KQkq - 0 1" ∧
    (startState.as_fen).map (fun o => (splitWs o.toList).take 3) =
      some (splitWs "rnbqkbnr/pppppppp/8/8/8/8/PPPPPPPP/RNBQKBNR w KQkq".toList) := by
  refine ⟨by decide, by decide, by decide⟩

/-- C7: after Black's double push d7–d5 in `c7s0`, White's en-passant capture
e5xd6 is generated among the legal moves and accepted by `make_move`; applying
it clears d5 (27) — the move's recorded en-passant capture square, where the
pushed pawn stands — which is distinct from the capture's destination d6 (19). -/
theorem c7_en_passant_capture_clears_pushed_pawn_square :
    BoardState.from_fen c7fen = FenOut.ok c7s0 ∧
    c7s1.map (fun s1 => (get_legal_moves s1).map fun l => l.any fun x => Move.peq x c7ep) =
      some (some true) ∧
    c7s1.map (fun s1 => s1.board.getD 27 0) = some (pieceCode .BlackPawn) ∧
    c7s2.map (fun s2 => (s2.board.getD 27 0, s2.board.getD 19 0, s2.board.getD 28 0)) =
      some (0, pieceCode .WhitePawn, 0) ∧
    c7ep.en_passant = some (.Index 27) ∧
    c7ep.toSq.as_ix ≠ 27 := by
  refine ⟨by decide, by decide, by decide, by decide, by decide, by decide⟩

/-- C8: `Position` equality is by definition equality of resolved indices;
the two documented fixed points hold (a8 and h1); and over all 64 algebraic
(rank, file) pairs the resolved index is below 64 and the conversion is
injective (hence a bijection onto 0..63). -/
theorem c8_coordinate_algebra_bijection :
    (∀ p q : Position, Position.peq p q = (p.as_ix == q.as_ix)) ∧
    Position.peq (.Algebraic 0 7) (.Relative 0 0 false) = true ∧
    Position.peq (.Algebraic 0 7) (.Index 0) = true ∧
    Position.peq (.Algebraic 7 0) (.Relative 7 7 false) = true ∧
    Position.peq (.Algebraic 7 0) (.Index 63) = true ∧
    (∀ rank file : Fin 8, (Position.Algebraic rank file).as_ix < 64) ∧
    (∀ r f r' f' : Fin 8,
      ((Position.Algebraic r f).as_ix == (Position.Algebraic r' f').as_ix) =
        (r == r' && f == f')) := by
  refine ⟨fun p q => rfl, by decide, by decide, by decide, by decide, by decide, by decide⟩

/-- C9: FEN parsing is not total — on a placement field encoding 72 squares
the parser's 65th piece-letter write is out of bounds (a panic, modelled as
`crash`), not an `ErrorParsingFEN`; and the `ErrorParsingFEN` error is
returned exactly when the input has no whitespace-separated field at all. -/
theorem c9_fen_parse_overflow_panics_and_error_only_when_empty :
    Fen.parse c9bad = FenOut.crash ∧
    (∀ s : String, Fen.parse s = FenOut.err → splitWs s.toList = []) := by
  refine ⟨by decide, ?_⟩
  intro s h
  cases hsp : splitWs s.toList with
  | nil => rfl
  | cons pos rest =>
    exfalso
    simp only [Fen.parse, hsp] at h
    split at h
    · exact FenOut.noConfusion h
    · exact FenOut.noConfusion h

/-- C9 witness: a whitespace-only input is refused with `ErrorParsingFEN`,
and indeed has no fields. -/
theorem c9_witness_whitespace_only_input :
    splitWs ((" " : String).toList) = [] :=
  c9_fen_parse_overflow_panics_and_error_only_when_empty.2 " " (by decide)

/-- C4: for every state and every move with distinct endpoints, when the
legality oracle returns (does not panic), `make_move` fails with
`IllegalMove` exactly when the move is not contained — by (from, to,
promotion) equality — in the legal-move list; and every error return leaves
the state exactly as it was before the call. -/
theorem c4_make_move_illegal_iff_not_legal_and_atomic_on_error :
    ∀ (s : BoardState) (mov : Move) (l : List Move),
      mov.fromSq.as_ix ≠ mov.toSq.as_ix →
      get_legal_moves s = some l →
      ((make_move s mov =
          some (.error (.moveErr (.IllegalMove mov)), s)) ↔
        (l.any fun x => Move.peq x mov) = false) ∧
      (∀ e st, make_move s mov = some (.error e, st) → st = s) := by
  intro s mov l hne hl
  have hleg : is_legal s mov = some (l.any fun x => Move.peq x mov) := by
    simp [is_legal, hl]
  by_cases hany : (l.any fun x => Move.peq x mov) = true
  · cases hah : add_to_history s mov with
    | error e =>
      refine ⟨?_, ?_⟩
      · simp [make_move, hne, hleg, hany, hah]
      · intro e' st h
        simp [make_move, hne, hleg, hany, hah] at h
        obtain ⟨-, h2⟩ := h
        exact h2.symm
    | ok s1 =>
      refine ⟨?_, ?_⟩
      · simp [make_move, hne, hleg, hany, hah]
      · intro e' st h
        simp [make_move, hne, hleg, hany, hah] at h
  · have hany' : (l.any fun x => Move.peq x mov) = false := by
      cases hb : (l.any fun x => Move.peq x mov) with
      | false => rfl
      | true => exact absurd hb hany
    refine ⟨?_, ?_⟩
    · simp [make_move, hne, hleg, hany']
    · intro e' st h
      simp [make_move, hne, hleg, hany'] at h
      obtain ⟨-, h2⟩ := h
      exact h2.symm

/-- C4 witness: in the two-kings state `wkState`, whose legal moves are
`wkLegal`, the move h1–h3 is rejected as `IllegalMove` with the state
returned unchanged. -/
theorem c4_witness_two_kings_illegal_move_rejected :
    make_move wkState wkMove =
      some (.error (.moveErr (.IllegalMove wkMove)), wkState) :=
  (c4_make_move_illegal_iff_not_legal_and_atomic_on_error wkState wkMove wkLegal
    (by decide) (by decide)).1.mpr (by decide)

/-- Reading any index of a list either returns an element or the default. -/
theorem getD_mem_or_default (l : List Nat) (i d : Nat) :
    l.getD i d ∈ l ∨ l.getD i d = d := by
  induction l generalizing i with
  | nil => right; simp
  | cons a t ih =>
    cases i with
    | zero => left; simp
    | succ j =>
      rcases ih j with h | h
      · left; simp only [List.getD_cons_succ]; exact List.mem_cons_of_mem a h
      · right; simpa using h

/-- A nonzero value absent from a list is never returned by `getD · 0`. -/
theorem getD_ne_of_not_mem (l : List Nat) (i a : Nat) (hmem : a ∉ l) (ha : a ≠ 0) :
    l.getD i 0 ≠ a := by
  rcases getD_mem_or_default l i 0 with h | h
  · intro he; rw [he] at h; exact hmem h
  · intro he; rw [he] at h; exact ha h

/-- Pointwise reads away from a value imply every element differs from it. -/
theorem mem_ne_of_getD_ne (l : List Nat) (code : Nat)
    (h : ∀ j, l.getD j 0 ≠ code) : ∀ x ∈ l, x ≠ code := by
  induction l with
  | nil => simp
  | cons a t ih =>
    intro x hx
    rcases List.mem_cons.mp hx with rfl | hx'
    · simpa using h 0
    · exact ih (fun j => by simpa using h (j + 1)) x hx'

/-- `findIdx?` with an equality test finds nothing when every element
differs (for any start index). -/
theorem findIdx_beq_none (l : List Nat) (a : Nat) (h : ∀ x ∈ l, x ≠ a) :
    ∀ i, l.findIdx? (fun p => p == a) i = none := by
  induction l with
  | nil => intro i; rfl
  | cons b t ih =>
    intro i
    rw [List.findIdx?_cons]
    rw [if_neg (by simp only [beq_iff_eq]; exact h b (List.mem_cons_self b t))]
    exact ih (fun x hx => h x (List.mem_cons_of_mem b hx)) (i + 1)

/-- `getD` after `set`: the new value inside bounds at the same index,
the old read otherwise. -/
theorem getD_set_ite (l : List Nat) (i j v d : Nat) :
    (l.set i v).getD j d = if i = j ∧ j < l.length then v else l.getD j d := by
  induction l generalizing i j with
  | nil => simp
  | cons a t ih =>
    cases i with
    | zero =>
      cases j with
      | zero => simp
      | succ jj => simp
    | succ ii =>
      cases j with
      | zero => simp
      | succ jj =>
        simp only [List.set_cons_succ, List.getD_cons_succ, ih ii jj, List.length_cons]
        by_cases hij : ii = jj
        · subst hij
          by_cases hlt : ii < t.length
          · rw [if_pos ⟨rfl, hlt⟩, if_pos ⟨rfl, by omega⟩]
          · rw [if_neg (by omega), if_neg (by omega)]
        · rw [if_neg (by omega), if_neg (by omega)]

/-- Setting a square to a non-king value keeps a board pointwise king-free. -/
theorem set_kingless (b : List Nat) (i v code : Nat)
    (hv : v ≠ code) (hb : ∀ j, b.getD j 0 ≠ code) :
    ∀ j, (b.set i v).getD j 0 ≠ code := by
  intro j
  rw [getD_set_ite]
  split
  · exact hv
  · exact hb j

/-- A move without promotion data is promotion-safe. -/
theorem promoSafe_of_none (m : Move) (h : m.promotion = none) : promoSafe m := by
  intro p hp
  rw [h] at hp
  exact Option.noConfusion hp

/-- Every move produced along a sliding ray carries no promotion. -/
theorem slideRay_promo_none (self piece : Piece) (board : List Nat)
    (position : Nat) (d : Int) :
    ∀ (fuel : Nat) (pos : Int) (m : Move),
      m ∈ slideRay self piece board position d fuel pos → m.promotion = none := by
  intro fuel
  induction fuel with
  | zero => intro pos m hm; exact absurd hm (List.not_mem_nil m)
  | succ n ih =>
    intro pos m hm
    simp only [slideRay] at hm
    split at hm
    · exact absurd hm (List.not_mem_nil m)
    · split at hm
      · exact absurd hm (List.not_mem_nil m)
      · split at hm
        · exact absurd hm (List.not_mem_nil m)
        · split at hm
          · split at hm
            · rw [List.mem_singleton.mp hm]; rfl
            · exact absurd hm (List.not_mem_nil m)
          · rcases List.mem_cons.mp hm with rfl | hm'
            · rfl
            · split at hm'
              · exact absurd hm' (List.not_mem_nil m)
              · exact ih (pos + d) m hm'

/-- Every sliding move carries no promotion. -/
theorem get_sliding_moves_promo_none (self : Piece) (board : List Nat) (position : Nat) :
    ∀ m ∈ get_sliding_moves self board position, m.promotion = none := by
  intro m hm
  unfold get_sliding_moves at hm
  split at hm
  · exact absurd hm (List.not_mem_nil m)
  · rcases List.mem_flatMap.mp hm with ⟨d, _, hmd⟩
    exact slideRay_promo_none self _ board position d 64 (position : Int) m hmd

/-- Every knight move carries no promotion. -/
theorem get_knight_moves_promo_none (self : Piece) (board : List Nat) (position : Nat) :
    ∀ m ∈ get_knight_moves self board position, m.promotion = none := by
  intro m hm
  unfold get_knight_moves at hm
  rcases List.mem_flatMap.mp hm with ⟨d, _, hmd⟩
  simp only at hmd
  split at hmd
  · exact absurd hmd (List.not_mem_nil m)
  · split at hmd
    · exact absurd hmd (List.not_mem_nil m)
    · split at hmd
      · exact absurd hmd (List.not_mem_nil m)
      · split at hmd
        · split at hmd
          · rw [List.mem_singleton.mp hmd]; rfl
          · exact absurd hmd (List.not_mem_nil m)
        · rw [List.mem_singleton.mp hmd]; rfl

/-- Every castling move carries no promotion. -/
theorem get_castling_moves_promo_none (self : Piece) (board : List Nat) (position : Nat)
    (castle_rights : CastleRights) (threatmap : List Nat) :
    ∀ m ∈ get_castling_moves self board position castle_rights threatmap,
      m.promotion = none := by
  intro m hm
  unfold get_castling_moves at hm
  simp only [] at hm
  rcases List.mem_append.mp hm with h | h <;>
    · repeat'
        first
        | (split at h)
        | (simp only [] at h)
      all_goals
        first
          | exact absurd h (List.not_mem_nil m)
          | (rw [List.mem_singleton.mp h]; rfl)

/-- An en-passant move produced by `get_en_passant` carries no promotion. -/
theorem get_en_passant_promo_none (self : Piece) (board : List Nat) (position : Nat)
    (last_move : Option Move) (m : Move)
    (h : get_en_passant self board position last_move = some m) : m.promotion = none := by
  unfold get_en_passant at h
  repeat'
    first
    | (split at h)
    | (simp only [] at h)
  all_goals
    first
      | exact Option.noConfusion h
      | (injection h with h'; rw [← h']; rfl)

/-- A promotion batch always contains a promotion-safe move (the queen on a
promoting destination, the plain move otherwise). -/
theorem add_with_promotions_good (self : Piece) (f t : Nat) :
    ∃ m ∈ add_with_promotions self f t, promoSafe m := by
  unfold add_with_promotions
  simp only []
  split
  · split
    · refine ⟨Move.new_promotion (.Index f) (.Index t) (some .WhiteQueen), ?_, ?_⟩
      · simp [Piece.white_pieces]
      · intro p hp
        have hpq : p = Piece.WhiteQueen := by
          simpa [Move.new_promotion, Move.new_with_all] using hp.symm
        subst hpq
        exact ⟨by decide, by decide⟩
    · refine ⟨Move.new_promotion (.Index f) (.Index t) (some .BlackQueen), ?_, ?_⟩
      · simp [Piece.black_pieces]
      · intro p hp
        have hpq : p = Piece.BlackQueen := by
          simpa [Move.new_promotion, Move.new_with_all] using hp.symm
        subst hpq
        exact ⟨by decide, by decide⟩
  · refine ⟨Move.new_promotion (.Index f) (.Index t) none, by simp, ?_⟩
    intro p hp
    exact Option.noConfusion hp

/-- Empty-or-contains-a-safe-move is preserved under concatenation. -/
theorem append_good {l1 l2 : List Move}
    (h1 : l1 = [] ∨ ∃ m ∈ l1, promoSafe m) (h2 : l2 = [] ∨ ∃ m ∈ l2, promoSafe m) :
    l1 ++ l2 = [] ∨ ∃ m ∈ l1 ++ l2, promoSafe m := by
  rcases h1 with rfl | ⟨m, hm, hg⟩
  · rcases h2 with rfl | ⟨m, hm, hg⟩
    · left; rfl
    · right; exact ⟨m, by simpa using hm, hg⟩
  · right; exact ⟨m, List.mem_append_left l2 hm, hg⟩

/-- A list of promotion-free moves is empty or contains a safe move. -/
theorem good_of_all_none {l : List Move} (h : ∀ m ∈ l, m.promotion = none) :
    l = [] ∨ ∃ m ∈ l, promoSafe m := by
  cases l with
  | nil => left; rfl
  | cons a t =>
    right
    exact ⟨a, List.mem_cons_self a t, promoSafe_of_none a (h a (List.mem_cons_self a t))⟩

/-- The pawn move list is empty or contains a promotion-safe move: every
promotion batch carries the queen variant and the en-passant move has no
promotion. -/
theorem get_pawn_moves_good (self : Piece) (board : List Nat) (position : Nat)
    (last_move : Option Move) :
    get_pawn_moves self board position last_move = [] ∨
      ∃ m ∈ get_pawn_moves self board position last_move, promoSafe m := by
  unfold get_pawn_moves
  simp only []
  split <;>
    · apply append_good
      · apply append_good
        · apply append_good
          · split
            · apply append_good
              · exact Or.inr (add_with_promotions_good _ _ _)
              · split
                · split
                  · exact Or.inr (add_with_promotions_good _ _ _)
                  · exact Or.inl rfl
                · exact Or.inl rfl
            · exact Or.inl rfl
          · split
            · split
              · split
                · exact Or.inr (add_with_promotions_good _ _ _)
                · exact Or.inl rfl
              · exact Or.inl rfl
            · exact Or.inl rfl
        · split
          · split
            · split
              · exact Or.inr (add_with_promotions_good _ _ _)
              · exact Or.inl rfl
            · exact Or.inl rfl
          · exact Or.inl rfl
      · split
        · next mep heq =>
            right
            refine ⟨mep, List.mem_singleton.mpr rfl, ?_⟩
            exact promoSafe_of_none _ (get_en_passant_promo_none _ _ _ _ _ heq)
        · exact Or.inl rfl

/-- Every per-piece move list is empty or contains a promotion-safe move. -/
theorem get_moves_good (self : Piece) (board : List Nat) (position : Nat)
    (last_move : Option Move) (castle_rights : CastleRights) (threatmap : List Nat) :
    Piece.get_moves self board position last_move castle_rights threatmap = [] ∨
      ∃ m ∈ Piece.get_moves self board position last_move castle_rights threatmap,
        promoSafe m := by
  cases self with
  | WhiteKing =>
    apply good_of_all_none
    intro m hm
    rcases List.mem_append.mp hm with h | h
    · exact get_sliding_moves_promo_none _ _ _ m h
    · exact get_castling_moves_promo_none _ _ _ _ _ m h
  | BlackKing =>
    apply good_of_all_none
    intro m hm
    rcases List.mem_append.mp hm with h | h
    · exact get_sliding_moves_promo_none _ _ _ m h
    · exact get_castling_moves_promo_none _ _ _ _ _ m h
  | WhiteQueen => exact good_of_all_none (get_sliding_moves_promo_none _ _ _)
  | BlackQueen => exact good_of_all_none (get_sliding_moves_promo_none _ _ _)
  | WhiteRook => exact good_of_all_none (get_sliding_moves_promo_none _ _ _)
  | BlackRook => exact good_of_all_none (get_sliding_moves_promo_none _ _ _)
  | WhiteBishop => exact good_of_all_none (get_sliding_moves_promo_none _ _ _)
  | BlackBishop => exact good_of_all_none (get_sliding_moves_promo_none _ _ _)
  | WhiteKnight => exact good_of_all_none (get_knight_moves_promo_none _ _ _)
  | BlackKnight => exact good_of_all_none (get_knight_moves_promo_none _ _ _)
  | WhitePawn => exact get_pawn_moves_good _ _ _ _
  | BlackPawn => exact get_pawn_moves_good _ _ _ _

/-- The pseudo-legal move list of a state is empty or contains a
promotion-safe move. -/
theorem get_all_moves_good (s : BoardState) :
    get_all_moves s = [] ∨ ∃ m ∈ get_all_moves s, promoSafe m := by
  unfold get_all_moves
  generalize List.range 64 = li
  induction li with
  | nil => exact Or.inl rfl
  | cons i it ih =>
    rw [List.flatMap_cons]
    apply append_good
    · split
      · exact Or.inl rfl
      · split
        · exact Or.inl rfl
        · exact get_moves_good _ _ _ _ _ _
    · exact ih

/-- Recomputing the threat map leaves the board untouched. -/
theorem update_threatmap_board (s : BoardState) : (update_threatmap s).board = s.board := rfl

/-- The king square value of either side is nonzero. -/
theorem moverKingCode_ne_zero (s : BoardState) : moverKingCode s ≠ 0 := by
  unfold moverKingCode
  split <;> decide

/-- Applying a move that does not promote to the king keeps a board
pointwise free of the king value: the written values are a non-king piece
(or a square read from the kingless board) and zeros. -/
theorem move_piece_board_kingless (s : BoardState) (mov : Move) (code : Nat)
    (hcode : code ≠ 0)
    (hb : ∀ j, s.board.getD j 0 ≠ code)
    (hp : ∀ p, mov.promotion = some p → pieceCode p ≠ code) :
    ∀ j, (move_piece s mov).board.getD j 0 ≠ code := by
  cases hpm : mov.promotion with
  | some p =>
    cases hep : mov.en_passant with
    | some cap =>
      simp only [move_piece, hpm, hep]
      exact set_kingless _ _ _ _ (Ne.symm hcode)
        (set_kingless _ _ _ _ (Ne.symm hcode) (set_kingless _ _ _ _ (hp p hpm) hb))
    | none =>
      simp only [move_piece, hpm, hep]
      exact set_kingless _ _ _ _ (Ne.symm hcode) (set_kingless _ _ _ _ (hp p hpm) hb)
  | none =>
    cases hep : mov.en_passant with
    | some cap =>
      simp only [move_piece, hpm, hep]
      exact set_kingless _ _ _ _ (Ne.symm hcode)
        (set_kingless _ _ _ _ (Ne.symm hcode) (set_kingless _ _ _ _ (hb _) hb))
    | none =>
      simp only [move_piece, hpm, hep]
      exact set_kingless _ _ _ _ (Ne.symm hcode) (set_kingless _ _ _ _ (hb _) hb)

/-- On a board without the mover's king, simulating a move that does not
promote to a king panics: the king-position search finds nothing and the
`unwrap` fires (`none`). -/
theorem leaves_none_of_kingless_good (s : BoardState) (mov : Move)
    (hb : ∀ j, s.board.getD j 0 ≠ moverKingCode s)
    (hp : ∀ p, mov.promotion = some p → pieceCode p ≠ moverKingCode s) :
    leaves_king_in_check s mov = none := by
  have hb1 : ∀ j, (update_threatmap (move_piece s mov)).board.getD j 0 ≠ moverKingCode s :=
    move_piece_board_kingless s mov _ (moverKingCode_ne_zero s) hb hp
  have hf : (update_threatmap (move_piece s mov)).board.findIdx?
      (fun p => p == moverKingCode s) 0 = none :=
    findIdx_beq_none _ _ (mem_ne_of_getD_ne _ _ hb1) 0
  unfold leaves_king_in_check
  simp only []
  have hw : (if (update_threatmap (move_piece s mov)).white_to_move = true then
      pieceCode Piece.WhiteKing else pieceCode Piece.BlackKing) = moverKingCode s := rfl
  rw [hw, hf]

/-- `move_piece` preserves the board length. -/
theorem move_piece_board_length (s : BoardState) (mov : Move) :
    (move_piece s mov).board.length = s.board.length := by
  unfold move_piece
  cases mov.en_passant <;> simp [List.length_set]

/-- On a board without the mover's king, the legality simulation either
panics or returns a scratch state whose restored board is again free of the
mover's king (side to move unchanged). -/
theorem leaves_result_kingless (s : BoardState) (mov : Move)
    (hb : ∀ j, s.board.getD j 0 ≠ moverKingCode s) :
    leaves_king_in_check s mov = none ∨
      ∃ ck s', leaves_king_in_check s mov = some (ck, s') ∧
        s'.white_to_move = s.white_to_move ∧
        ∀ j, s'.board.getD j 0 ≠ moverKingCode s := by
  cases hres : leaves_king_in_check s mov with
  | none => exact Or.inl rfl
  | some pr =>
    right
    have hcode := moverKingCode_ne_zero s
    have hres2 := hres
    unfold leaves_king_in_check at hres2
    simp only [] at hres2
    split at hres2
    · exact Option.noConfusion hres2
    · injection hres2 with h1
      refine ⟨pr.1, pr.2, ?_, ?_, ?_⟩
      · rw [Prod.mk.eta]
      · rw [← h1]
        rfl
      · rw [← h1]
        simp only []
        rw [update_threatmap_board]
        simp only [update_threatmap_board]
        intro j
        rw [getD_set_ite]
        split
        · exact hb _
        · rename_i hnt
          have hnt2 : ¬(mov.toSq.as_ix = j ∧ j < s.board.length) := by
            simpa [List.length_set, update_threatmap_board, move_piece_board_length]
              using hnt
          rw [getD_set_ite]
          split
          · exact hb _
          · cases hpm : mov.promotion with
            | some p =>
              cases hep : mov.en_passant with
              | some cap =>
                simp only [move_piece, hpm, hep]
                rw [getD_set_ite]
                split
                · exact Ne.symm hcode
                · rw [getD_set_ite]
                  split
                  · exact Ne.symm hcode
                  · rw [getD_set_ite]
                    split
                    · rename_i hc
                      exact absurd hc hnt2
                    · exact hb _
              | none =>
                simp only [move_piece, hpm, hep]
                rw [getD_set_ite]
                split
                · exact Ne.symm hcode
                · rw [getD_set_ite]
                  split
                  · rename_i hc
                    exact absurd hc hnt2
                  · exact hb _
            | none =>
              cases hep : mov.en_passant with
              | some cap =>
                simp only [move_piece, hpm, hep]
                rw [getD_set_ite]
                split
                · exact Ne.symm hcode
                · rw [getD_set_ite]
                  split
                  · exact Ne.symm hcode
                  · rw [getD_set_ite]
                    split
                    · rename_i hc
                      exact absurd hc hnt2
                    · exact hb _
              | none =>
                simp only [move_piece, hpm, hep]
                rw [getD_set_ite]
                split
                · exact Ne.symm hcode
                · rw [getD_set_ite]
                  split
                  · rename_i hc
                    exact absurd hc hnt2
                  · exact hb _

/-- The legality filter panics on any move list containing a
promotion-safe move when the mover's king is absent: the state threaded
through the filter stays kingless until the panic fires. -/
theorem filterLegal_none_of_kingless (ms : List Move) :
    ∀ (s : BoardState), (∀ j, s.board.getD j 0 ≠ moverKingCode s) →
      (∃ m ∈ ms, promoSafe m) → filterLegal s ms = none := by
  induction ms with
  | nil =>
    intro s hb hex
    obtain ⟨m, hm, -⟩ := hex
    exact absurd hm (List.not_mem_nil m)
  | cons h t ih =>
    intro s hb hex
    obtain ⟨m, hm, hgm⟩ := hex
    rcases List.mem_cons.mp hm with rfl | hmt
    · have hnone : leaves_king_in_check s m = none := by
        apply leaves_none_of_kingless_good s m hb
        intro p hp
        rcases hgm p hp with ⟨h1, h65⟩
        unfold moverKingCode
        split
        · exact h1
        · exact h65
      simp [filterLegal, hnone]
    · rcases leaves_result_kingless s h hb with hnone | ⟨ck, s', hsome, hw, hb'⟩
      · simp [filterLegal, hnone]
      · have hb2 : ∀ j, s'.board.getD j 0 ≠ moverKingCode s' := by
          have hmk : moverKingCode s' = moverKingCode s := by
            unfold moverKingCode
            rw [hw]
          rw [hmk]
          exact hb'
        have ht : filterLegal s' t = none := ih s' hb2 ⟨m, hmt, hgm⟩
        simp [filterLegal, hsome, ht]

/-- C10 (amended): for any state in which the side to move has no king of
its color on the board and at least one pseudo-legal move exists,
`get_legal_moves` panics on the king-position `unwrap` (modelled as `none`)
rather than returning an error; but the precondition that the mover's king
is on the board does NOT make the unwrap branch unreachable — in `c10reach`
the white king is on the board and the oracle still panics, via an
en-passant capture whose destination square holds the mover's own king. -/
theorem c10_kingless_panics_and_king_presence_not_sufficient :
    (∀ s : BoardState, moverKingCode s ∉ s.board → get_all_moves s ≠ [] →
      get_legal_moves s = none) ∧
    (pieceCode Piece.WhiteKing ∈ c10reach.board ∧ get_legal_moves c10reach = none) := by
  constructor
  · intro s hmem hne
    have hb : ∀ j, s.board.getD j 0 ≠ moverKingCode s := fun j =>
      getD_ne_of_not_mem _ j _ hmem (moverKingCode_ne_zero s)
    rcases get_all_moves_good s with h | hgood
    · exact absurd h hne
    · exact filterLegal_none_of_kingless (get_all_moves s) s hb hgood
  · exact ⟨by decide, by decide⟩

/-- C10 (counterexample): in `c10state` the mover's (white) king IS on the
board, yet `get_legal_moves` reaches the `unwrap` panic — the en-passant
capture e5xd6 overwrites the white king on d6 during simulation, after
which the king search finds nothing. This refutes the claim that the unwrap
branch is unreachable whenever the mover's king is on the board. -/
theorem c10_counterexample_panic_with_king_on_board :
    pieceCode Piece.WhiteKing ∈ c10state.board ∧
    c10state.white_to_move = true ∧
    get_legal_moves c10state = none := by
  refine ⟨by decide, rfl, by decide⟩

/-- C10 witness: the kingless one-pawn state `c10w` has pseudo-legal moves
and its legality oracle panics. -/
theorem c10_witness_kingless_pawn_state_panics : get_legal_moves c10w = none :=
  c10_kingless_panics_and_king_presence_not_sufficient.1 c10w (by decide) (by decide)
